import Mathlib

/-
Shallow embedding of the concurrent log analyzer (src/main.go) and proofs
about the claims of its specification.

Modelling conventions, used throughout:
* Go strings are modelled as `List Char`.  `strings.Split(s, sep)` with a
  one-character separator is `List.splitOn sep` (both return `[""]` on the
  empty string and keep empty segments).
* Fallible Go functions are modelled with `Option`/`Except`; a Go `panic`
  is an `Except.error`.
* A Go `map` with `int64` values is modelled by its content: a count
  function together with its key set.  The order in which `for k := range m`
  enumerates the keys of a Go map is unspecified (and randomized by the
  runtime), so every function of the source that ranges over a map takes
  the enumeration order as an explicit parameter `pi`, constrained in the
  theorems to be a permutation of the key set.
* `time.Time` values are modelled as `Int`: a parsed timestamp is encoded
  by a mixed-radix encoding of its (year, month, day, hour, minute, second,
  nanosecond) fields that is strictly monotone in the chronological order,
  so `Time.After`/`Time.Before` become `>`/`<` on the encoding.  All times
  parsed by the fixed layout are wall-clock UTC instants, hence their
  chronological order is exactly the lexicographic order of the fields.
-/

namespace LogAnalyzer

/-- Go string, as a list of characters. -/
abbrev Str := List Char

/-- The white-space code points of Go's `unicode.IsSpace` (the Unicode
White_Space property plus nothing else); `strings.TrimSpace` trims these. -/
def isGoSpace (c : Char) : Bool :=
  c = ' ' || c = '\t' || c = '\n' || (c.toNat ≥ 0xB && c.toNat ≤ 0xD) ||
  c.toNat = 0x85 || c.toNat = 0xA0 || c.toNat = 0x1680 ||
  (c.toNat ≥ 0x2000 && c.toNat ≤ 0x200A) ||
  c.toNat = 0x2028 || c.toNat = 0x2029 || c.toNat = 0x202F ||
  c.toNat = 0x205F || c.toNat = 0x3000

/-- Model of Go `strings.TrimSpace`: drop white space from both ends. -/
def trimSpace (s : Str) : Str :=
  ((s.dropWhile isGoSpace).reverse.dropWhile isGoSpace).reverse

/-- Go `strconv`'s `lower(c) = c | ('x' - 'X')`, on code points. -/
def lowerNat (c : Char) : Nat := c.toNat ||| 0x20

/-- Value of a decimal digit character. -/
def digitVal (c : Char) : Nat := c.toNat - '0'.toNat

/-- State loop of Go `strconv.underscoreOK`: underscores must separate
digits (or follow a base prefix).  `saw` is the class of the previous
character: 0 = digit/base prefix, 1 = underscore, 2 = other, 3 = start. -/
def underscoreOKLoop (hex : Bool) : Str → Nat → Bool
  | [], saw => saw ≠ 1
  | c :: rest, saw =>
    if ('0' ≤ c && c ≤ '9') || (hex && 'a' ≤ Char.ofNat (lowerNat c) && Char.ofNat (lowerNat c) ≤ 'f') then
      underscoreOKLoop hex rest 0
    else if c = '_' then
      if saw ≠ 0 then false else underscoreOKLoop hex rest 1
    else if saw = 1 then false
    else underscoreOKLoop hex rest 2

/-- Model of Go `strconv.underscoreOK`. -/
def underscoreOK (s : Str) : Bool :=
  let s1 := match s with
    | c :: rest => if c = '-' || c = '+' then rest else s
    | [] => s
  match s1 with
  | c0 :: c1 :: rest =>
    if c0 = '0' && (lowerNat c1 = 'b'.toNat || lowerNat c1 = 'o'.toNat || lowerNat c1 = 'x'.toNat) then
      underscoreOKLoop (lowerNat c1 = 'x'.toNat) rest 0
    else underscoreOKLoop false s1 3
  | _ => underscoreOKLoop false s1 3

/-- Digit-accumulation loop of Go `strconv.ParseUint` for `bitSize = 16`
(`maxVal = 1<<16 - 1`); returns the value and whether underscores were
seen.  Go's pre-multiplication cutoff check and the `n1 > maxVal` check
both collapse to `n1 > 65535` once arithmetic is unbounded, because the
accumulator is monotone. -/
def parseUintLoop (base : Nat) (base0 : Bool) : Str → Nat → Bool → Option (Nat × Bool)
  | [], n, und => some (n, und)
  | c :: rest, n, und =>
    if c = '_' && base0 then parseUintLoop base base0 rest n true
    else
      let d? : Option Nat :=
        if '0' ≤ c && c ≤ '9' then some (digitVal c)
        else if 'a'.toNat ≤ lowerNat c && lowerNat c ≤ 'z'.toNat then some (lowerNat c - 'a'.toNat + 10)
        else none
      match d? with
      | none => none
      | some d =>
        if base ≤ d then none
        else
          let n1 := n * base + d
          if 65535 < n1 then none
          else parseUintLoop base base0 rest n1 und

/-- Base detection of Go `strconv.ParseUint` with base argument 0:
`0b`/`0o`/`0x` prefixes select binary/octal/hexadecimal, a bare leading
`0` selects octal, anything else decimal; returns the base and the
remaining digit characters. -/
def detectBase : Str → Nat × Str
  | [] => (10, [])
  | c0 :: rest0 =>
    if c0 = '0' then
      match rest0 with
      | c1 :: c2 :: rest2 =>
        if lowerNat c1 = 'b'.toNat then (2, c2 :: rest2)
        else if lowerNat c1 = 'o'.toNat then (8, c2 :: rest2)
        else if lowerNat c1 = 'x'.toNat then (16, c2 :: rest2)
        else (8, rest0)
      | _ => (8, rest0)
    else (10, c0 :: rest0)

/-- Model of Go `strconv.ParseUint(s, 0, 16)`: automatic base detection,
underscore digit separators, range `0 ≤ n ≤ 65535`.  `none` covers both
Go's syntax and range errors, since the caller only tests `err != nil`. -/
def parseUint16Base0 : Str → Option Nat
  | [] => none
  | c0 :: rest0 =>
    match parseUintLoop (detectBase (c0 :: rest0)).1 true (detectBase (c0 :: rest0)).2 0 false with
    | none => none
    | some (n, und) => if und && !underscoreOK (c0 :: rest0) then none else some n

/-- Model of Go `strconv.ParseInt(s, 0, 16)` as used at src/main.go:65:
optional sign, `ParseUint` on the rest, signed 16-bit range check
(`-32768 ≤ n ≤ 32767`).  `none` covers syntax and range errors alike. -/
def parseInt16Base0 (s : Str) : Option Int :=
  match s with
  | [] => none
  | c :: rest =>
    let (neg, digits) :=
      if c = '+' then (false, rest)
      else if c = '-' then (true, rest)
      else (false, s)
    match parseUint16Base0 digits with
    | none => none
    | some un =>
      if !neg && 32768 ≤ un then none
      else if neg && 32768 < un then none
      else if neg then some (-(un : Int)) else some (un : Int)

/-- One parsed log line (src/main.go:17-24). -/
structure LogMessage where
  timestamp : Str
  severity : Str
  module : Str
  function : Str
  lineNumber : Int
  message : Str
deriving DecidableEq, Repr, Inhabited

/-- Counts of the four recognized severities (src/main.go:35-40). -/
structure LogSeverityFrequency where
  debug : Int
  info : Int
  warning : Int
  error : Int
deriving DecidableEq, Repr

/-- Model of `parseLogMessage` (src/main.go:42-72): split on the pipes,
trim timestamp and severity, split the remainder on colons, take the
module and function, split the third colon segment on dashes into the
line number and the message, parse the line number. -/
def parseLogMessage (logRow : Str) : Option LogMessage :=
  let leftParts := logRow.splitOn '|'
  if leftParts.length ≠ 3 then none
  else
    let timestamp := trimSpace leftParts[0]!
    let severity := trimSpace leftParts[1]!
    if severity = [] then none
    else
      let rightParts := leftParts[2]!.splitOn ':'
      if rightParts.length < 3 then none
      else
        let module := trimSpace rightParts[0]!
        let function := trimSpace rightParts[1]!
        let messageRaw := rightParts[2]!.splitOn '-'
        if messageRaw.length < 2 then none
        else
          let lineNumRaw := messageRaw[0]!
          let message := messageRaw[1]!
          match parseInt16Base0 (trimSpace lineNumRaw) with
          | none => none
          | some lineNum =>
            some { timestamp := timestamp, severity := severity, module := module,
                   function := function, lineNumber := lineNum, message := trimSpace message }

/-- Parse exactly four digit characters (Go `time` layout chunk `2006`). -/
def getnum4 (s : Str) : Option (Nat × Str) :=
  match s with
  | c1 :: c2 :: c3 :: c4 :: rest =>
    if c1.isDigit && c2.isDigit && c3.isDigit && c4.isDigit then
      some (((digitVal c1 * 10 + digitVal c2) * 10 + digitVal c3) * 10 + digitVal c4, rest)
    else none
  | _ => none

/-- Go `time.getnum` with `fixed = true`: exactly two digits. -/
def getnum2 (s : Str) : Option (Nat × Str) :=
  match s with
  | c1 :: c2 :: rest =>
    if c1.isDigit && c2.isDigit then some (digitVal c1 * 10 + digitVal c2, rest) else none
  | _ => none

/-- Go `time.getnum` with `fixed = false`: one or two digits (the `15`
hour chunk accepts a single digit). -/
def getnum1or2 (s : Str) : Option (Nat × Str) :=
  match s with
  | [] => none
  | c1 :: rest =>
    if !c1.isDigit then none
    else
      match rest with
      | c2 :: rest2 => if c2.isDigit then some (digitVal c1 * 10 + digitVal c2, rest2) else some (digitVal c1, rest)
      | [] => some (digitVal c1, [])

/-- Require the next character to be `c`. -/
def expectChar (c : Char) (s : Str) : Option Str :=
  match s with
  | d :: rest => if d = c then some rest else none
  | [] => none

/-- The optional fractional second of the `.999` layout chunk: if a dot
or comma followed by a digit is present, consume the maximal digit run
and scale the first at most nine digits to nanoseconds, as Go's
`time.parseNanoseconds` does; otherwise consume nothing. -/
def parseFrac (s : Str) : Nat × Str :=
  match s with
  | sep :: c :: rest =>
    if (sep = '.' || sep = ',') && c.isDigit then
      let digits := (c :: rest).takeWhile Char.isDigit
      let rest2 := (c :: rest).dropWhile Char.isDigit
      let k := min digits.length 9
      ((digits.take k).foldl (fun a d => a * 10 + digitVal d) 0 * 10 ^ (9 - k), rest2)
    else (0, sep :: c :: rest)
  | _ => (0, s)

/-- Gregorian leap year, as Go `time.isLeap`. -/
def isLeapYear (y : Nat) : Bool := y % 4 = 0 && (y % 100 ≠ 0 || y % 400 = 0)

/-- Days in a month, as Go `time.daysIn`. -/
def daysIn (mo y : Nat) : Nat :=
  if mo = 2 then (if isLeapYear y then 29 else 28)
  else if mo = 4 || mo = 6 || mo = 9 || mo = 11 then 30
  else 31

/-- Order-isomorphic integer encoding of a wall-clock instant: strictly
monotone in the lexicographic field order because every field stays below
its radix (month ≤ 12 < 16, day ≤ 31 < 32, hour ≤ 23 < 32,
minute and second ≤ 59 < 64, nanoseconds < 10^9 < 2^30). -/
def encodeGoTime (y mo d h mi s ns : Nat) : Int :=
  (((((((y * 16 + mo) * 32 + d) * 32 + h) * 64 + mi) * 64 + s) * 2 ^ 30 + ns : Nat) : Int)

/-- The zero `time.Time`: January 1 of year 1, 00:00:00 UTC. -/
def zeroGoTime : Int := encodeGoTime 1 1 1 0 0 0 0

/-- Model of Go `time.Parse` with the fixed layout
`2006-01-02 15:04:05.999` (src/main.go:14): four-digit year, two-digit
zero-padded month/day/minute/second, one-or-two-digit hour, optional
fractional second, exact literal separators, no trailing text; month,
hour, minute, second ranges checked inline and the day of month checked
against the month length at the end, as Go's parser does. -/
def parseGoTime (s : Str) : Option Int := do
  let (y, s) ← getnum4 s
  let s ← expectChar '-' s
  let (mo, s) ← getnum2 s
  if mo < 1 || 12 < mo then none else do
  let s ← expectChar '-' s
  let (d, s) ← getnum2 s
  let s ← expectChar ' ' s
  let (h, s) ← getnum1or2 s
  if 24 ≤ h then none else do
  let s ← expectChar ':' s
  let (mi, s) ← getnum2 s
  if 60 ≤ mi then none else do
  let s ← expectChar ':' s
  let (sec, s) ← getnum2 s
  if 60 ≤ sec then none else do
  let (ns, s) := parseFrac s
  if s ≠ [] then none
  else if d < 1 || daysIn mo y < d then none
  else some (encodeGoTime y mo d h mi sec ns)

/-- Per-file (and global) summary (src/main.go:26-33).  Start and end
times are encoded instants (see `encodeGoTime`). -/
structure LogAnalysis where
  numEntries : Int
  logSeverityFrequency : LogSeverityFrequency
  topFiveLogMessages : List Str
  topFiveLogMessageFrequencies : List Int
  startTime : Int
  endTime : Int
deriving DecidableEq, Repr

/-- Model of `parseLogFile` (src/main.go:74-89).  The file content is
`none` when `os.ReadFile` fails (the function then returns no records and
the batch continues), otherwise the raw text; the text is split on
newlines and every line that parses is kept, in file order. -/
def parseLogFile (content : Option Str) : List LogMessage :=
  match content with
  | none => []
  | some data => (data.splitOn '\n').filterMap parseLogMessage

/-- Model of `getNumEntries` (src/main.go:91-94). -/
def getNumEntries (logMessages : List LogMessage) : Int :=
  logMessages.length

/-- Model of `getLogSeverityFrequency` (src/main.go:96-112): exact,
case-sensitive matches of the four recognized tokens; anything else is
skipped. -/
def getLogSeverityFrequency (logMessages : List LogMessage) : LogSeverityFrequency :=
  logMessages.foldl (fun acc m =>
    if m.severity = "DEBUG".toList then { acc with debug := acc.debug + 1 }
    else if m.severity = "INFO".toList then { acc with info := acc.info + 1 }
    else if m.severity = "WARNING".toList then { acc with warning := acc.warning + 1 }
    else if m.severity = "ERROR".toList then { acc with error := acc.error + 1 }
    else acc) ⟨0, 0, 0, 0⟩

/-- Stable insertion of `x` into `l`: `x` goes in front of the first
element that does not strictly precede it, so elements equal under the
comparator keep their relative order. -/
def insertStable (less : α → α → Bool) (x : α) : List α → List α
  | [] => [x]
  | y :: ys => if less y x then y :: insertStable less x ys else x :: y :: ys

/-- Model of Go `sort.SliceStable`: the stable sort of `l` with respect to
the strict comparator `less` (for the key-based comparators of this file
the result is the unique sorted permutation that keeps equal-key elements
in their original relative order). -/
def sortStableBy (less : α → α → Bool) : List α → List α
  | [] => []
  | x :: xs => insertStable less x (sortStableBy less xs)

/-- Occurrence count of message text `m` in the record list; the content
of the map built at src/main.go:118-120. -/
def messageCount (logMessages : List LogMessage) (m : Str) : Int :=
  ((logMessages.map LogMessage.message).count m : Nat)

/-- The key set of that map: the distinct message texts. -/
def distinctMessages (logMessages : List LogMessage) : List Str :=
  (logMessages.map LogMessage.message).dedup

/-- Model of `getTopFiveLogMessages` (src/main.go:114-142).  `pi` is the
order in which `for message := range rankedLogMessages` enumerates the
map's keys (unspecified in Go); the keys are stably sorted by descending
count and the first five fill two fixed five-slot lists, the unused slots
keeping the empty message and zero frequency. -/
def getTopFiveLogMessages (pi : List Str) (logMessages : List LogMessage) : List Str × List Int :=
  let sorted := sortStableBy
    (fun a b => decide (messageCount logMessages a > messageCount logMessages b)) pi
  let k := min 5 sorted.length
  (sorted.take k ++ List.replicate (5 - k) [],
   (sorted.take k).map (messageCount logMessages) ++ List.replicate (5 - k) 0)

/-- Model of `getStartTime` (src/main.go:144-153): the zero time for an
empty record list, otherwise the first record's timestamp parsed with the
fixed layout; the `panic` on a parse failure is an `Except.error`. -/
def getStartTime (logMessages : List LogMessage) : Except String Int :=
  match logMessages with
  | [] => .ok zeroGoTime
  | m :: _ =>
    match parseGoTime m.timestamp with
    | none => .error "Unable to parse start time"
    | some t => .ok t

/-- Model of `getEndTime` (src/main.go:155-164); same for the last record. -/
def getEndTime (logMessages : List LogMessage) : Except String Int :=
  match logMessages with
  | [] => .ok zeroGoTime
  | _ :: _ =>
    match parseGoTime (logMessages.getLast!).timestamp with
    | none => .error "Unable to parse end time"
    | some t => .ok t

/-- Model of `analyzeLogFile` (src/main.go:166-176) minus the channel
send: aggregate one file's content into its summary.  `pi` is the map
enumeration order used by `getTopFiveLogMessages`. -/
def analyzeLogFile (pi : List Str) (content : Option Str) : Except String LogAnalysis := do
  let logMessages := parseLogFile content
  let top := getTopFiveLogMessages pi logMessages
  let startTime ← getStartTime logMessages
  let endTime ← getEndTime logMessages
  .ok { numEntries := getNumEntries logMessages
        logSeverityFrequency := getLogSeverityFrequency logMessages
        topFiveLogMessages := top.1
        topFiveLogMessageFrequencies := top.2
        startTime := startTime
        endTime := endTime }

/-- The (message, frequency) slot pairs a summary contributes to the
global ranking: the first five slots (src/main.go:202-210). -/
def slotPairs (la : LogAnalysis) : List (Str × Int) :=
  (la.topFiveLogMessages.zip la.topFiveLogMessageFrequencies).take 5

/-- Content of the global `rankedLogMessages` map (src/main.go:200-211):
per message text, the sum of that message's slot frequencies over all
summaries, in the order supplied. -/
def globalCount (logAnalyses : List LogAnalysis) (m : Str) : Int :=
  (logAnalyses.map (fun la => (((slotPairs la).filter (fun p => p.1 == m)).map Prod.snd).sum)).sum

/-- Key set of the global map: every message text occurring in some slot
(including the empty placeholder text when a summary has one). -/
def globalKeys (logAnalyses : List LogAnalysis) : List Str :=
  ((logAnalyses.map (fun la => (slotPairs la).map Prod.fst)).flatten).dedup

/-- Model of `analyzeTopFiveLogMessages` (src/main.go:199-232): stably
sort the map's keys (enumerated in the unspecified order `pi`) by
descending summed frequency and keep at most five.  Only the messages are
returned; the frequencies stay inside the map. -/
def analyzeTopFiveLogMessages (pi : List Str) (logAnalyses : List LogAnalysis) : List Str :=
  let sorted := sortStableBy
    (fun a b => decide (globalCount logAnalyses a > globalCount logAnalyses b)) pi
  sorted.take 5

/-- One iteration of the reduction loop (src/main.go:252-264): add the
entry and severity counts, keep the chronologically smaller start time
(`After` is `>` on encoded instants) and the larger end time. -/
def mergeStep (acc la : LogAnalysis) : LogAnalysis :=
  { acc with
    numEntries := acc.numEntries + la.numEntries
    logSeverityFrequency :=
      { debug := acc.logSeverityFrequency.debug + la.logSeverityFrequency.debug
        info := acc.logSeverityFrequency.info + la.logSeverityFrequency.info
        warning := acc.logSeverityFrequency.warning + la.logSeverityFrequency.warning
        error := acc.logSeverityFrequency.error + la.logSeverityFrequency.error }
    startTime := if la.startTime < acc.startTime then la.startTime else acc.startTime
    endTime := if acc.endTime < la.endTime then la.endTime else acc.endTime }

/-- Model of `analyzelogAnalyses` (src/main.go:234-267), the cross-file
reducer: `panic("No analysis found")` on an empty batch, otherwise start
from the first summary's times, install the global top five messages
(the frequencies field is never assigned and stays `nil`), and fold the
whole list.  `pi` is the global map's enumeration order. -/
def analyzelogAnalyses (pi : List Str) (logAnalyses : List LogAnalysis) : Except String LogAnalysis :=
  match logAnalyses with
  | [] => .error "No analysis found"
  | first :: _ =>
    let top := (analyzeTopFiveLogMessages pi logAnalyses).take 5
    .ok (logAnalyses.foldl mergeStep
      { numEntries := 0, logSeverityFrequency := ⟨0, 0, 0, 0⟩,
        topFiveLogMessages := top, topFiveLogMessageFrequencies := [],
        startTime := first.startTime, endTime := first.endTime })

/-- Model of `analyzeLogFiles` (src/main.go:269-286) with the summaries
collected in input order: one aggregation per file (each with its own map
enumeration order from `pis`), then the reduction.  The arrival order of
the concurrent results is a permutation of this list; the permutation
claims quantify over it at the reducer. -/
def analyzeLogFiles (pis : List (List Str)) (files : List (Option Str)) (pig : List Str) :
    Except String LogAnalysis := do
  let logAnalyses ← (List.zipWith analyzeLogFile pis files).mapM (fun x => x)
  analyzelogAnalyses pig logAnalyses

/-- The empty summary produced for an empty, fully-malformed or unreadable
file: no entries, all-zero severities, five empty slots, zero times. -/
def emptyLogAnalysis : LogAnalysis :=
  { numEntries := 0, logSeverityFrequency := ⟨0, 0, 0, 0⟩,
    topFiveLogMessages := List.replicate 5 [], topFiveLogMessageFrequencies := List.replicate 5 0,
    startTime := zeroGoTime, endTime := zeroGoTime }

/-- A grammar-shaped log line assembled from its six raw segments; the
theorems constrain the segments to be free of the delimiters that bound
them. -/
def mkLogLine (t s m f num msg : Str) : Str :=
  t ++ '|' :: (s ++ '|' :: (m ++ ':' :: (f ++ ':' :: (num ++ '-' :: msg))))

/-- Numeric value of a list of decimal digit characters. -/
def decVal (ds : Str) : Nat :=
  ds.foldl (fun a c => a * 10 + digitVal c) 0

/-- The first-encountered order of the distinct messages of a record
list: the order in which distinct message texts are first seen while
iterating, which is what the spec requires of the tie-break. -/
def firstEncounterOrder (logMessages : List LogMessage) : List Str :=
  (logMessages.map LogMessage.message).foldl (fun acc m => if m ∈ acc then acc else acc ++ [m]) []

/-- The lines a file contributes: none when the read fails, otherwise
the newline-split text (src/main.go:76-81). -/
def fileLines : Option Str → List Str
  | none => []
  | some data => data.splitOn '\n'

/-- The ten decimal digit characters. -/
def decimalDigits : Str := ['0', '1', '2', '3', '4', '5', '6', '7', '8', '9']

/-- The chronologically smallest element of a nonempty list of encoded
instants (the value of the start-time fold); 0 on the empty list. -/
def minHead : List Int → Int
  | [] => 0
  | x :: xs => xs.foldl min x

/-- The chronologically largest element (the end-time fold). -/
def maxHead : List Int → Int
  | [] => 0
  | x :: xs => xs.foldl max x

/-- A record carrying only a message text, for the ranking examples. -/
def msgRecord (m : String) : LogMessage :=
  { timestamp := [], severity := [], module := [], function := [], lineNumber := 0,
    message := m.toList }

/-- The record list of the ranking example of the claim (and of the
repository's own TestGetTopFiveLogMessages), in the claimed order. -/
def exampleRecords : List LogMessage :=
  [msgRecord "Error 3", msgRecord "Error 1", msgRecord "Error 3", msgRecord "Error 2",
   msgRecord "Error 3", msgRecord "Error 4", msgRecord "Error 1", msgRecord "Error 5",
   msgRecord "Error 6"]

/-- A record whose timestamp matches the fixed layout, for the C8
witness. -/
def c8Record : LogMessage :=
  { timestamp := "2024-01-01 00:00:00.000".toList, severity := "INFO".toList,
    module := [], function := [], lineNumber := 0, message := [] }

/-- A line whose module and function tokens are surrounded by spaces. -/
def c10Line : Str :=
  "2024-01-02 15:04:05.999 | INFO |  app.module : fn : 123 - hi".toList

/-- The record `c10Line` parses to: module and function are trimmed. -/
def c10Record : LogMessage :=
  { timestamp := "2024-01-02 15:04:05.999".toList, severity := "INFO".toList,
    module := "app.module".toList, function := "fn".toList, lineNumber := 123,
    message := "hi".toList }

/-- A parsed instant in 2024, for the reduction counterexamples. -/
def c4Time : Int := encodeGoTime 2024 1 1 0 0 0 0

/-- A one-entry summary whose start and end times are `c4Time`. -/
def c4Late : LogAnalysis :=
  { numEntries := 1, logSeverityFrequency := ⟨0, 0, 0, 1⟩,
    topFiveLogMessages := ["X".toList, [], [], [], []],
    topFiveLogMessageFrequencies := [1, 0, 0, 0, 0],
    startTime := c4Time, endTime := c4Time }

/-- File A of the end-to-end scenario. -/
def c7FileA : Option Str :=
  some ("2024-01-01 00:00:00.000 | INFO | app.module: function: 123 - User logged in\n2024-01-01 00:01:00.000 | ERROR | app.module: function: 124 - Database error").toList

/-- File B of the end-to-end scenario. -/
def c7FileB : Option Str :=
  some ("2024-01-01 00:02:00.000 | WARNING | app.module: function: 125 - Low memory\n2024-01-01 00:03:00.000 | ERROR | app.module: function: 126 - Database error").toList

/-- Map enumeration order for file A (its two distinct messages). -/
def c7PiA : List Str := ["User logged in".toList, "Database error".toList]

/-- Map enumeration order for file B. -/
def c7PiB : List Str := ["Low memory".toList, "Database error".toList]

/-- Enumeration order of the global map: the four distinct slot texts,
including the empty placeholder text. -/
def c7PiG : List Str :=
  ["User logged in".toList, "Database error".toList, "Low memory".toList, []]

/-- The summary `analyzeLogFile c7PiA c7FileA` computes. -/
def c7LaA : LogAnalysis :=
  { numEntries := 2, logSeverityFrequency := ⟨0, 1, 0, 1⟩,
    topFiveLogMessages := ["User logged in".toList, "Database error".toList, [], [], []],
    topFiveLogMessageFrequencies := [1, 1, 0, 0, 0],
    startTime := encodeGoTime 2024 1 1 0 0 0 0, endTime := encodeGoTime 2024 1 1 0 1 0 0 }

/-- The summary `analyzeLogFile c7PiB c7FileB` computes. -/
def c7LaB : LogAnalysis :=
  { numEntries := 2, logSeverityFrequency := ⟨0, 0, 1, 1⟩,
    topFiveLogMessages := ["Low memory".toList, "Database error".toList, [], [], []],
    topFiveLogMessageFrequencies := [1, 1, 0, 0, 0],
    startTime := encodeGoTime 2024 1 1 0 2 0 0, endTime := encodeGoTime 2024 1 1 0 3 0 0 }

/-- A summary with a single real message and four placeholder slots. -/
def c2Placeholder : LogAnalysis :=
  { numEntries := 1, logSeverityFrequency := ⟨0, 0, 0, 1⟩,
    topFiveLogMessages := ["A".toList, [], [], [], []],
    topFiveLogMessageFrequencies := [1, 0, 0, 0, 0],
    startTime := zeroGoTime, endTime := zeroGoTime }

/-- A summary with two equal-frequency messages, for the tie-break. -/
def c2TieA : LogAnalysis :=
  { numEntries := 2, logSeverityFrequency := ⟨0, 0, 0, 2⟩,
    topFiveLogMessages := ["A".toList, "B".toList, [], [], []],
    topFiveLogMessageFrequencies := [1, 1, 0, 0, 0],
    startTime := zeroGoTime, endTime := zeroGoTime }

section ListLemmas

variable {α : Type _}

/-- Splitting `a ++ sep :: b` on `sep` when `a` is `sep`-free: the first
segment is `a`. -/
theorem splitOn_sep_free_append [DecidableEq α] {sep : α} {a : List α} (h : sep ∉ a) (b : List α) :
    (a ++ sep :: b).splitOn sep = a :: b.splitOn sep := by
  apply List.splitOnP_first
  · intro x hx
    simp only [beq_iff_eq]
    intro hcon
    exact h (hcon ▸ hx)
  · simp

/-- A `sep`-free list splits into a single segment. -/
theorem splitOn_sep_free [DecidableEq α] {sep : α} {a : List α} (h : sep ∉ a) :
    a.splitOn sep = [a] := by
  apply List.splitOnP_eq_single
  intro x hx
  simp only [beq_iff_eq]
  intro hcon
  exact h (hcon ▸ hx)

/-- Splitting a two-segment assembly. -/
theorem splitOn_two [DecidableEq α] (sep : α) (a b : List α) (ha : sep ∉ a) (hb : sep ∉ b) :
    (a ++ sep :: b).splitOn sep = [a, b] := by
  rw [splitOn_sep_free_append ha, splitOn_sep_free hb]

/-- Splitting a three-segment assembly. -/
theorem splitOn_three [DecidableEq α] (sep : α) (a b c : List α)
    (ha : sep ∉ a) (hb : sep ∉ b) (hc : sep ∉ c) :
    (a ++ sep :: (b ++ sep :: c)).splitOn sep = [a, b, c] := by
  rw [splitOn_sep_free_append ha, splitOn_sep_free_append hb, splitOn_sep_free hc]

/-- The head of `dropWhile p` does not satisfy `p`. -/
theorem head?_dropWhile_not {p : α → Bool} {l : List α} {c : α}
    (h : (l.dropWhile p).head? = some c) : p c = false := by
  induction l with
  | nil => simp at h
  | cons x xs ih =>
    rw [List.dropWhile_cons] at h
    by_cases hx : p x = true
    · rw [if_pos hx] at h
      exact ih h
    · rw [if_neg hx] at h
      rw [List.head?_cons, Option.some.injEq] at h
      subst h
      simpa using hx

/-- `dropWhile` only removes a prefix, so a nonempty result keeps the last
element. -/
theorem getLast?_dropWhile {p : α → Bool} {l : List α}
    (h : l.dropWhile p ≠ []) : (l.dropWhile p).getLast? = l.getLast? := by
  induction l with
  | nil => simp at h
  | cons x xs ih =>
    rw [List.dropWhile_cons] at h ⊢
    by_cases hx : p x = true
    · rw [if_pos hx] at h ⊢
      rw [ih h]
      have hxs : xs ≠ [] := fun hcon => h (by simp [hcon])
      cases xs with
      | nil => exact absurd rfl hxs
      | cons y ys => rw [List.getLast?_cons_cons]
    · rw [if_neg hx]

/-- The first character of a trimmed string is not white space. -/
theorem trimSpace_head {s : Str} {c : Char} (h : (trimSpace s).head? = some c) :
    isGoSpace c = false := by
  unfold trimSpace at h
  rw [List.head?_reverse] at h
  have hne : (s.dropWhile isGoSpace).reverse.dropWhile isGoSpace ≠ [] := by
    intro hcon
    rw [hcon] at h
    simp at h
  rw [getLast?_dropWhile hne, List.getLast?_reverse] at h
  exact head?_dropWhile_not h

/-- The last character of a trimmed string is not white space. -/
theorem trimSpace_getLast {s : Str} {c : Char} (h : (trimSpace s).getLast? = some c) :
    isGoSpace c = false := by
  unfold trimSpace at h
  rw [List.getLast?_reverse] at h
  exact head?_dropWhile_not h

end ListLemmas

section SortLemmas

variable {α : Type _}

/-- Stable insertion produces a permutation. -/
theorem insertStable_perm (less : α → α → Bool) (x : α) (l : List α) :
    (insertStable less x l).Perm (x :: l) := by
  induction l with
  | nil => exact List.Perm.refl _
  | cons y ys ih =>
    unfold insertStable
    by_cases h : less y x = true
    · rw [if_pos h]
      exact (ih.cons y).trans (List.Perm.swap x y ys)
    · rw [if_neg h]

/-- The stable sort is a permutation of its input. -/
theorem sortStableBy_perm (less : α → α → Bool) (l : List α) :
    (sortStableBy less l).Perm l := by
  induction l with
  | nil => exact List.Perm.refl _
  | cons x xs ih =>
    exact (insertStable_perm less x (sortStableBy less xs)).trans (ih.cons x)

/-- Stable insertion with a descending key comparator preserves the
descending-key invariant. -/
theorem insertStable_pairwise (k : α → Int) (x : α) (l : List α)
    (h : l.Pairwise (fun a b => k b ≤ k a)) :
    (insertStable (fun a b => decide (k a > k b)) x l).Pairwise (fun a b => k b ≤ k a) := by
  induction l with
  | nil => simp [insertStable]
  | cons y ys ih =>
    rw [List.pairwise_cons] at h
    unfold insertStable
    by_cases hyx : k y > k x
    · rw [if_pos (by simpa using hyx)]
      rw [List.pairwise_cons]
      refine ⟨fun z hz => ?_, ih h.2⟩
      rcases List.mem_cons.mp ((insertStable_perm _ x ys).mem_iff.mp hz) with hzx | hzys
      · exact hzx ▸ le_of_lt hyx
      · exact h.1 z hzys
    · rw [if_neg (by simpa using hyx)]
      rw [List.pairwise_cons]
      refine ⟨fun z hz => ?_, List.Pairwise.cons h.1 h.2⟩
      rcases List.mem_cons.mp hz with hzy | hzys
      · exact hzy ▸ not_lt.mp hyx
      · exact le_trans (h.1 z hzys) (not_lt.mp hyx)

/-- The stable sort by a descending key produces a list whose keys are
weakly decreasing. -/
theorem sortStableBy_pairwise (k : α → Int) (l : List α) :
    (sortStableBy (fun a b => decide (k a > k b)) l).Pairwise (fun a b => k b ≤ k a) := by
  induction l with
  | nil => simp [sortStableBy]
  | cons x xs ih => exact insertStable_pairwise k x _ ih

end SortLemmas

section MergeLemmas

/-- The conditional assignments of the reduction loop compute `min`. -/
theorem ite_lt_min (a b : Int) : (if b < a then b else a) = min a b := by
  rcases le_or_lt a b with h | h
  · rw [if_neg (not_lt.mpr h), min_eq_left h]
  · rw [if_pos h, min_eq_right (le_of_lt h)]

/-- The conditional assignments of the reduction loop compute `max`. -/
theorem ite_lt_max (a b : Int) : (if a < b then b else a) = max a b := by
  rcases le_or_lt b a with h | h
  · rw [if_neg (not_lt.mpr h), max_eq_left h]
  · rw [if_pos h, max_eq_right (le_of_lt h)]

/-- `mergeStep` in terms of `min` and `max`. -/
theorem mergeStep_eq (acc la : LogAnalysis) :
    mergeStep acc la =
      { acc with
        numEntries := acc.numEntries + la.numEntries
        logSeverityFrequency :=
          { debug := acc.logSeverityFrequency.debug + la.logSeverityFrequency.debug
            info := acc.logSeverityFrequency.info + la.logSeverityFrequency.info
            warning := acc.logSeverityFrequency.warning + la.logSeverityFrequency.warning
            error := acc.logSeverityFrequency.error + la.logSeverityFrequency.error }
        startTime := min acc.startTime la.startTime
        endTime := max acc.endTime la.endTime } := by
  unfold mergeStep
  rw [ite_lt_min, ite_lt_max]

/-- Closed form of the reduction loop of src/main.go:252-264: the counts
accumulate as sums, the times as a `min`/`max` fold, and the top-five
fields pass through untouched. -/
theorem foldl_mergeStep (l : List LogAnalysis) (acc : LogAnalysis) :
    l.foldl mergeStep acc =
      { numEntries := acc.numEntries + (l.map LogAnalysis.numEntries).sum
        logSeverityFrequency :=
          { debug := acc.logSeverityFrequency.debug +
              (l.map (fun a => a.logSeverityFrequency.debug)).sum
            info := acc.logSeverityFrequency.info +
              (l.map (fun a => a.logSeverityFrequency.info)).sum
            warning := acc.logSeverityFrequency.warning +
              (l.map (fun a => a.logSeverityFrequency.warning)).sum
            error := acc.logSeverityFrequency.error +
              (l.map (fun a => a.logSeverityFrequency.error)).sum }
        topFiveLogMessages := acc.topFiveLogMessages
        topFiveLogMessageFrequencies := acc.topFiveLogMessageFrequencies
        startTime := (l.map LogAnalysis.startTime).foldl min acc.startTime
        endTime := (l.map LogAnalysis.endTime).foldl max acc.endTime } := by
  induction l generalizing acc with
  | nil => simp
  | cons a t ih =>
    rw [List.foldl_cons, ih, mergeStep_eq]
    simp only [List.map_cons, List.sum_cons, List.foldl_cons]
    congr 1 <;> try omega
    congr 1 <;> omega

/-- `minHead` only depends on the multiset of elements. -/
theorem minHead_perm {l₁ l₂ : List Int} (h : l₁.Perm l₂) : minHead l₁ = minHead l₂ := by
  induction h with
  | nil => rfl
  | cons x h ih => exact h.foldl_eq' (fun a _ b _ z => min_right_comm z a b) x
  | swap x y l =>
    show (x :: l).foldl min y = (y :: l).foldl min x
    simp only [List.foldl_cons]
    rw [min_comm]
  | trans h₁ h₂ ih₁ ih₂ => exact ih₁.trans ih₂

/-- `maxHead` only depends on the multiset of elements. -/
theorem maxHead_perm {l₁ l₂ : List Int} (h : l₁.Perm l₂) : maxHead l₁ = maxHead l₂ := by
  induction h with
  | nil => rfl
  | cons x h ih =>
    refine h.foldl_eq' (fun a _ b _ z => ?_) x
    rw [max_assoc, max_comm a b, ← max_assoc]
  | swap x y l =>
    show (x :: l).foldl max y = (y :: l).foldl max x
    simp only [List.foldl_cons]
    rw [max_comm]
  | trans h₁ h₂ ih₁ ih₂ => exact ih₁.trans ih₂

/-- The start-time fold of the reducer, which re-visits the head it was
initialized from, computes `minHead`. -/
theorem foldl_min_head (x : Int) (xs : List Int) :
    (x :: xs).foldl min x = minHead (x :: xs) := by
  show (x :: xs).foldl min x = xs.foldl min x
  rw [List.foldl_cons, min_self]

/-- Same for the end-time fold. -/
theorem foldl_max_head (x : Int) (xs : List Int) :
    (x :: xs).foldl max x = maxHead (x :: xs) := by
  show (x :: xs).foldl max x = xs.foldl max x
  rw [List.foldl_cons, max_self]

end MergeLemmas

section DecimalLemmas

/-- Elementary facts about a decimal digit character, by enumeration. -/
theorem digit_facts {c : Char} (h : c ∈ decimalDigits) :
    ('0' ≤ c ∧ c ≤ '9') ∧ c ≠ '_' ∧ digitVal c ≤ 9 ∧ c ≠ '+' ∧ c ≠ '-' ∧ c ≠ '|' ∧ c ≠ ':' := by
  simp only [decimalDigits, List.mem_cons, List.not_mem_nil, or_false] at h
  rcases h with rfl | rfl | rfl | rfl | rfl | rfl | rfl | rfl | rfl | rfl <;> decide

/-- The decimal accumulator never decreases. -/
theorem foldl_decVal_ge (ds : Str) (a : Nat) :
    a ≤ ds.foldl (fun n c => n * 10 + digitVal c) a := by
  induction ds generalizing a with
  | nil => simp
  | cons c rest ih =>
    rw [List.foldl_cons]
    exact le_trans (by omega) (ih (a * 10 + digitVal c))

/-- On a pure decimal digit string the `ParseUint` loop computes the
decimal value, failing exactly when it exceeds the 16-bit maximum. -/
theorem parseUintLoop_decimal (ds : Str) (hds : ∀ c ∈ ds, c ∈ decimalDigits) (a : Nat)
    (ha : a ≤ 65535) :
    parseUintLoop 10 true ds a false =
      if ds.foldl (fun n c => n * 10 + digitVal c) a ≤ 65535 then
        some (ds.foldl (fun n c => n * 10 + digitVal c) a, false)
      else none := by
  induction ds generalizing a with
  | nil => simp [parseUintLoop, ha]
  | cons c rest ih =>
    obtain ⟨hle, hus, hd9, -, -, -, -⟩ := digit_facts (hds c (by simp))
    have hrest : ∀ x ∈ rest, x ∈ decimalDigits := fun x hx => hds x (by simp [hx])
    have hnotten : ¬ (10 ≤ digitVal c) := by omega
    rw [List.foldl_cons]
    simp only [parseUintLoop, hus, hle.1, hle.2, decide_True, decide_False, Bool.false_and,
      Bool.true_and, Bool.and_true, Bool.false_eq_true, if_false, if_true, hnotten]
    by_cases h65 : 65535 < a * 10 + digitVal c
    · rw [if_pos h65]
      have hge := foldl_decVal_ge rest (a * 10 + digitVal c)
      have hbig : ¬ (List.foldl (fun n c => n * 10 + digitVal c) (a * 10 + digitVal c) rest ≤ 65535) := by
        omega
      rw [if_neg hbig]
    · rw [if_neg h65]
      exact ih hrest (a * 10 + digitVal c) (by omega)

/-- Model of the claim's positive number grammar: on a nonempty decimal
digit string with no spurious leading zero, `strconv.ParseInt(s, 0, 16)`
returns exactly the decimal value when it fits in a signed 16-bit
integer and fails when it does not. -/
theorem parseInt16Base0_decimal (ds : Str) (hne : ds ≠ [])
    (hds : ∀ c ∈ ds, c ∈ decimalDigits) (hlead : ds.head? = some '0' → ds = ['0']) :
    parseInt16Base0 ds = if decVal ds ≤ 32767 then some ((decVal ds : Nat) : Int) else none := by
  cases ds with
  | nil => exact absurd rfl hne
  | cons c rest =>
    by_cases hc0 : c = '0'
    · have hds0 : c :: rest = ['0'] := hlead (by simp [hc0])
      rw [hds0]
      decide
    · obtain ⟨hle, hus, hd9, hplus, hminus, -, -⟩ := digit_facts (hds c (by simp))
      have hloop := parseUintLoop_decimal (c :: rest) hds 0 (by omega)
      have hdb : detectBase (c :: rest) = (10, c :: rest) := by
        simp [detectBase, hc0]
      have hpu : parseUint16Base0 (c :: rest) =
          if decVal (c :: rest) ≤ 65535 then some (decVal (c :: rest)) else none := by
        simp only [parseUint16Base0, hdb]
        rw [hloop]
        rw [show List.foldl (fun n c => n * 10 + digitVal c) 0 (c :: rest) = decVal (c :: rest)
          from rfl]
        by_cases h65 : decVal (c :: rest) ≤ 65535
        · rw [if_pos h65, if_pos h65]
          simp
        · rw [if_neg h65, if_neg h65]
      simp only [parseInt16Base0, if_neg hplus, if_neg hminus]
      rw [hpu]
      by_cases h65 : decVal (c :: rest) ≤ 65535
      · rw [if_pos h65]
        by_cases h32 : 32768 ≤ decVal (c :: rest)
        · rw [if_neg (by omega : ¬ decVal (c :: rest) ≤ 32767)]
          simp [h32]
        · rw [if_pos (by omega : decVal (c :: rest) ≤ 32767)]
          simp [h32]
      · rw [if_neg h65]
        rw [if_neg (by omega : ¬ decVal (c :: rest) ≤ 32767)]

end DecimalLemmas

/-- `parseLogFile` in terms of the contributed lines. -/
theorem parseLogFile_eq_fileLines (content : Option Str) :
    parseLogFile content = (fileLines content).filterMap parseLogMessage := by
  cases content <;> rfl

/-- The parser on a line with exactly three pipe segments, written in
terms of the segments. -/
theorem parseLogMessage_three (t s r : Str) (ht : '|' ∉ t) (hs : '|' ∉ s) (hr : '|' ∉ r) :
    parseLogMessage (t ++ '|' :: (s ++ '|' :: r)) =
      (if trimSpace s = [] then none
       else if (r.splitOn ':').length < 3 then none
       else if ((r.splitOn ':')[2]!.splitOn '-').length < 2 then none
       else
         match parseInt16Base0 (trimSpace ((r.splitOn ':')[2]!.splitOn '-')[0]!) with
         | none => none
         | some lineNum =>
           some { timestamp := trimSpace t, severity := trimSpace s,
                  module := trimSpace (r.splitOn ':')[0]!,
                  function := trimSpace (r.splitOn ':')[1]!,
                  lineNumber := lineNum,
                  message := trimSpace ((r.splitOn ':')[2]!.splitOn '-')[1]! }) := by
  unfold parseLogMessage
  rw [splitOn_sep_free_append ht, splitOn_sep_free_append hs, splitOn_sep_free hr]
  rfl

/-- The parser on a fully assembled grammar line whose segments are free
of the delimiters that bound them: everything reduces to the severity
check and the line-number parse. -/
theorem parseLogMessage_mkLogLine (t s m f num msg : Str)
    (ht : '|' ∉ t) (hs : '|' ∉ s)
    (hm1 : '|' ∉ m) (hm2 : ':' ∉ m) (hf1 : '|' ∉ f) (hf2 : ':' ∉ f)
    (hn1 : '|' ∉ num) (hn2 : ':' ∉ num) (hn3 : '-' ∉ num)
    (hg1 : '|' ∉ msg) (hg2 : ':' ∉ msg) (hg3 : '-' ∉ msg) :
    parseLogMessage (mkLogLine t s m f num msg) =
      (if trimSpace s = [] then none
       else
         match parseInt16Base0 (trimSpace num) with
         | none => none
         | some lineNum =>
           some { timestamp := trimSpace t, severity := trimSpace s,
                  module := trimSpace m, function := trimSpace f,
                  lineNumber := lineNum, message := trimSpace msg }) := by
  have hx : ':' ∉ (num ++ '-' :: msg) := by
    intro hc
    rcases List.mem_append.mp hc with h | h
    · exact hn2 h
    rcases List.mem_cons.mp h with h | h
    · exact absurd h (by decide)
    · exact hg2 h
  have hr : '|' ∉ (m ++ ':' :: (f ++ ':' :: (num ++ '-' :: msg))) := by
    intro hc
    rcases List.mem_append.mp hc with h | h
    · exact hm1 h
    rcases List.mem_cons.mp h with h | h
    · exact absurd h (by decide)
    rcases List.mem_append.mp h with h | h
    · exact hf1 h
    rcases List.mem_cons.mp h with h | h
    · exact absurd h (by decide)
    rcases List.mem_append.mp h with h | h
    · exact hn1 h
    rcases List.mem_cons.mp h with h | h
    · exact absurd h (by decide)
    · exact hg1 h
  have hcolon : ((m ++ ':' :: (f ++ ':' :: (num ++ '-' :: msg))).splitOn ':') =
      [m, f, num ++ '-' :: msg] := splitOn_three ':' m f (num ++ '-' :: msg) hm2 hf2 hx
  have hdash : ((num ++ '-' :: msg).splitOn '-') = [num, msg] :=
    splitOn_two '-' num msg hn3 hg3
  rw [show mkLogLine t s m f num msg =
    t ++ '|' :: (s ++ '|' :: (m ++ ':' :: (f ++ ':' :: (num ++ '-' :: msg)))) from rfl]
  rw [parseLogMessage_three t s _ ht hs hr, hcolon]
  rw [if_neg (show ¬ (([m, f, num ++ '-' :: msg] : List Str).length < 3) from by simp)]
  simp only [List.getElem!_cons_zero, List.getElem!_cons_succ]
  rw [hdash]
  rw [if_neg (show ¬ (([num, msg] : List Str).length < 2) from by simp)]
  rfl

/-- C3 (amended): positive direction — a grammar line round-trips every
field after trimming provided the message (and the other inner segments)
contain none of the delimiter characters and the line number is a plain
decimal numeral without spurious leading zeros whose value fits in signed
16 bits; a decimal value beyond 32767 makes the parse fail.  Negative
direction, as the claim lists it: the empty string, a line without
exactly 3 pipe segments, an empty trimmed severity, fewer than 3 colon
segments, a missing dash split, and a line number rejected by
`strconv.ParseInt(s, 0, 16)` each produce no record. -/
theorem c3_amended :
    (∀ t s m f num msg ds : Str,
      '|' ∉ t → '|' ∉ s → trimSpace s ≠ [] →
      '|' ∉ m → ':' ∉ m → '|' ∉ f → ':' ∉ f →
      '|' ∉ num → ':' ∉ num → '-' ∉ num →
      '|' ∉ msg → ':' ∉ msg → '-' ∉ msg →
      trimSpace num = ds → ds ≠ [] → (∀ c ∈ ds, c ∈ decimalDigits) →
      (ds.head? = some '0' → ds = ['0']) →
      ((decVal ds ≤ 32767 →
        parseLogMessage (mkLogLine t s m f num msg) =
          some { timestamp := trimSpace t, severity := trimSpace s, module := trimSpace m,
                 function := trimSpace f, lineNumber := (decVal ds : Int),
                 message := trimSpace msg }) ∧
       (32767 < decVal ds → parseLogMessage (mkLogLine t s m f num msg) = none))) ∧
    parseLogMessage [] = none ∧
    (∀ line : Str, (line.splitOn '|').length ≠ 3 → parseLogMessage line = none) ∧
    (∀ t s r : Str, '|' ∉ t → '|' ∉ s → '|' ∉ r → trimSpace s = [] →
      parseLogMessage (t ++ '|' :: (s ++ '|' :: r)) = none) ∧
    (∀ t s r : Str, '|' ∉ t → '|' ∉ s → '|' ∉ r → (r.splitOn ':').length < 3 →
      parseLogMessage (t ++ '|' :: (s ++ '|' :: r)) = none) ∧
    (∀ t s r : Str, '|' ∉ t → '|' ∉ s → '|' ∉ r →
      ((r.splitOn ':')[2]!.splitOn '-').length < 2 →
      parseLogMessage (t ++ '|' :: (s ++ '|' :: r)) = none) ∧
    (∀ t s r : Str, '|' ∉ t → '|' ∉ s → '|' ∉ r →
      parseInt16Base0 (trimSpace ((r.splitOn ':')[2]!.splitOn '-')[0]!) = none →
      parseLogMessage (t ++ '|' :: (s ++ '|' :: r)) = none) := by
  refine ⟨?_, by decide, ?_, ?_, ?_, ?_, ?_⟩
  · intro t s m f num msg ds ht hs hsev hm1 hm2 hf1 hf2 hn1 hn2 hn3 hg1 hg2 hg3
      hds hdsne hdig hlead
    rw [parseLogMessage_mkLogLine t s m f num msg ht hs hm1 hm2 hf1 hf2 hn1 hn2 hn3
      hg1 hg2 hg3, if_neg hsev, hds, parseInt16Base0_decimal ds hdsne hdig hlead]
    constructor
    · intro h32
      rw [if_pos h32]
    · intro h32
      rw [if_neg (by omega : ¬ decVal ds ≤ 32767)]
  · intro line h
    simp [parseLogMessage, h]
  · intro t s r ht hs hr hsev
    rw [parseLogMessage_three t s r ht hs hr, if_pos hsev]
  · intro t s r ht hs hr hcol
    rw [parseLogMessage_three t s r ht hs hr]
    by_cases hsev : trimSpace s = []
    · rw [if_pos hsev]
    · rw [if_neg hsev, if_pos hcol]
  · intro t s r ht hs hr hdash
    rw [parseLogMessage_three t s r ht hs hr]
    by_cases hsev : trimSpace s = []
    · rw [if_pos hsev]
    by_cases hcol : (r.splitOn ':').length < 3
    · rw [if_neg hsev, if_pos hcol]
    · rw [if_neg hsev, if_neg hcol, if_pos hdash]
  · intro t s r ht hs hr hnum
    rw [parseLogMessage_three t s r ht hs hr]
    by_cases hsev : trimSpace s = []
    · rw [if_pos hsev]
    by_cases hcol : (r.splitOn ':').length < 3
    · rw [if_neg hsev, if_pos hcol]
    by_cases hdash : ((r.splitOn ':')[2]!.splitOn '-').length < 2
    · rw [if_neg hsev, if_neg hcol, if_pos hdash]
    · rw [if_neg hsev, if_neg hcol, if_neg hdash, hnum]

/-- Witness for C3 (amended): a concrete grammar line with incidental
whitespace in every segment round-trips to the trimmed record. -/
theorem c3_amended_witness :
    parseLogMessage (mkLogLine "2024-01-02 15:04:05.999 ".toList " INFO ".toList
      " app".toList " fn".toList " 123 ".toList " User logged in".toList) =
      some { timestamp := "2024-01-02 15:04:05.999".toList, severity := "INFO".toList,
             module := "app".toList, function := "fn".toList, lineNumber := 123,
             message := "User logged in".toList } :=
  ((c3_amended.1 "2024-01-02 15:04:05.999 ".toList " INFO ".toList " app".toList
    " fn".toList " 123 ".toList " User logged in".toList "123".toList
    (by decide) (by decide) (by decide) (by decide) (by decide) (by decide) (by decide)
    (by decide) (by decide) (by decide) (by decide) (by decide) (by decide)
    (by decide) (by decide) (by decide) (by decide)).1 (by decide)).trans (by decide)

/-- C9 (confirmed): the reducer fails fatally — the modelled
`panic("No analysis found")` — exactly when the summary list is empty,
and returns a summary on every non-empty list, for every map enumeration
order. -/
theorem c9_reduce_empty_batch_fatal (pi : List Str) (logAnalyses : List LogAnalysis) :
    (analyzelogAnalyses pi logAnalyses = .error "No analysis found" ↔ logAnalyses = []) ∧
    (logAnalyses ≠ [] → ∃ out, analyzelogAnalyses pi logAnalyses = .ok out) := by
  constructor
  · constructor
    · intro h
      cases logAnalyses with
      | nil => rfl
      | cons a t => simp [analyzelogAnalyses] at h
    · intro h
      subst h
      rfl
  · intro h
    cases logAnalyses with
    | nil => exact absurd rfl h
    | cons a t => exact ⟨_, rfl⟩

/-- Witness for C9 at concrete inputs: the empty batch panics, a
one-summary batch succeeds. -/
theorem c9_reduce_empty_batch_fatal_witness :
    (analyzelogAnalyses [] [] = .error "No analysis found") ∧
    (∃ out, analyzelogAnalyses [[]] [emptyLogAnalysis] = .ok out) :=
  ⟨(c9_reduce_empty_batch_fatal [] []).1.mpr rfl,
   (c9_reduce_empty_batch_fatal [[]] [emptyLogAnalysis]).2 (by simp)⟩

/-- C1 (code bug): `getTopFiveLogMessages` ranks the keys of a Go map in
the map's unspecified iteration order, stably sorted only by count, so
the tie-break among equal-count messages is whatever order the runtime
enumerates the keys — not the first-encountered order the claim (and the
repository's own TestGetTopFiveLogMessages) requires.  On the claim's own
example: with the first-encountered enumeration the claimed ranking comes
out, but with another legal enumeration of the same key set the
equal-count messages Error 2 and Error 4 swap places. -/
theorem c1_topFive_tiebreak_depends_on_map_order :
    (firstEncounterOrder exampleRecords).Perm (distinctMessages exampleRecords) ∧
    (["Error 3", "Error 1", "Error 4", "Error 2", "Error 5", "Error 6"].map
      String.toList).Perm (distinctMessages exampleRecords) ∧
    getTopFiveLogMessages (firstEncounterOrder exampleRecords) exampleRecords =
      (["Error 3", "Error 1", "Error 2", "Error 4", "Error 5"].map String.toList,
       [3, 2, 1, 1, 1]) ∧
    getTopFiveLogMessages
      (["Error 3", "Error 1", "Error 4", "Error 2", "Error 5", "Error 6"].map String.toList)
      exampleRecords =
      (["Error 3", "Error 1", "Error 4", "Error 2", "Error 5"].map String.toList,
       [3, 2, 1, 1, 1]) ∧
    (["Error 3", "Error 1", "Error 4", "Error 2", "Error 5"].map String.toList) ≠
      (["Error 3", "Error 1", "Error 2", "Error 4", "Error 5"].map String.toList) :=
  ⟨by decide, by decide, by decide, by decide, by decide⟩

/-- C3 counterexample: a line matching the claimed grammar whose message
contains a dash loses everything from the dash on — Go takes
`Split(seg, "-")[1]`, not the joined remainder — so the message field
does not round-trip; and a `0x`-prefixed line number, which is not a
decimal integer, is accepted because the code parses with base 0. -/
theorem c3_counterexample :
    (parseLogMessage "2024-01-02 15:04:05.999 | INFO | mod:fn:12 - a-b".toList).map
      LogMessage.message = some "a".toList ∧
    "a".toList ≠ "a-b".toList ∧
    (parseLogMessage "2024-01-02 15:04:05.999 | INFO | mod:fn: 0x10 - msg".toList).map
      LogMessage.lineNumber = some 16 :=
  ⟨by decide, by decide, by decide⟩

/-- C6 (confirmed): a file that is unreadable (content `none`), empty, or
whose every line fails to parse aggregates to the valid empty summary —
zero entries, all-zero severities, five empty placeholder slots, zero
start and end times — and the batch carries one summary per supplied
file, so an unreadable file is included rather than omitted. -/
theorem c6_degenerate_file_yields_empty_summary (pi : List Str) (content : Option Str)
    (h : content = none ∨ ∀ line ∈ fileLines content, parseLogMessage line = none)
    (hpi : pi.Perm (distinctMessages (parseLogFile content)))
    (pis : List (List Str)) (files : List (Option Str)) (hlen : pis.length = files.length) :
    analyzeLogFile pi content = .ok emptyLogAnalysis ∧
    (List.zipWith analyzeLogFile pis files).length = files.length := by
  have hrec : parseLogFile content = [] := by
    rcases h with h | h
    · rw [h]
      rfl
    · rw [parseLogFile_eq_fileLines]
      exact List.filterMap_eq_nil_iff.mpr h
  have hpinil : pi = [] := by
    rw [hrec] at hpi
    exact hpi.eq_nil
  subst hpinil
  constructor
  · simp only [analyzeLogFile, hrec]
    rfl
  · simp [List.length_zipWith, hlen]

/-- Witness for C6: an unreadable file, with a one-file batch. -/
theorem c6_degenerate_file_yields_empty_summary_witness :
    analyzeLogFile [] none = .ok emptyLogAnalysis ∧
    (List.zipWith analyzeLogFile ([[]] : List (List Str)) ([none] : List (Option Str))).length =
      ([none] : List (Option Str)).length :=
  c6_degenerate_file_yields_empty_summary [] none (Or.inl rfl) (by decide)
    ([[]] : List (List Str)) ([none] : List (Option Str)) rfl

/-- C8 (confirmed): on a non-empty record list, the per-file start time
parses the first record's timestamp and the end time the last record's
timestamp with the fixed layout, and each fails fatally (the modelled
panic) exactly when that timestamp does not match the layout; when it
matches, the parsed instant is returned and the fatal branch is
unreachable. -/
theorem c8_summary_time_parse_panics_iff (logMessages : List LogMessage)
    (h : logMessages ≠ []) :
    (getStartTime logMessages = .error "Unable to parse start time" ↔
      parseGoTime (logMessages.head h).timestamp = none) ∧
    (∀ t, parseGoTime (logMessages.head h).timestamp = some t →
      getStartTime logMessages = .ok t) ∧
    (getEndTime logMessages = .error "Unable to parse end time" ↔
      parseGoTime (logMessages.getLast h).timestamp = none) ∧
    (∀ t, parseGoTime (logMessages.getLast h).timestamp = some t →
      getEndTime logMessages = .ok t) := by
  cases logMessages with
  | nil => exact absurd rfl h
  | cons m rest =>
    simp only [List.head_cons]
    have hlast : (m :: rest).getLast! = (m :: rest).getLast h :=
      List.getLast!_of_getLast? (List.getLast?_eq_getLast _ h)
    refine ⟨?_, ?_, ?_, ?_⟩
    · cases hp : parseGoTime m.timestamp with
      | none => simp [getStartTime, hp]
      | some t => simp [getStartTime, hp]
    · intro t hp
      simp [getStartTime, hp]
    · cases hp : parseGoTime ((m :: rest).getLast h).timestamp with
      | none => simp [getEndTime, hlast, hp]
      | some t => simp [getEndTime, hlast, hp]
    · intro t hp
      simp [getEndTime, hlast, hp]

/-- Witness for C8: a record with a layout-conforming timestamp, on which
both time computations return the parsed instant. -/
theorem c8_summary_time_parse_panics_iff_witness :
    getStartTime [c8Record] = .ok (encodeGoTime 2024 1 1 0 0 0 0) ∧
    getEndTime [c8Record] = .ok (encodeGoTime 2024 1 1 0 0 0 0) :=
  ⟨(c8_summary_time_parse_panics_iff [c8Record] (by decide)).2.1 _ (by decide),
   (c8_summary_time_parse_panics_iff [c8Record] (by decide)).2.2.2 _ (by decide)⟩

/-- C10 (confirmed): every record accepted by `parseLogMessage` has
whitespace-trimmed module and function fields — they never begin or end
with a white-space character, even when the raw line carries spaces
around the colon-delimited tokens. -/
theorem c10_module_function_trimmed (logRow : Str) (r : LogMessage)
    (h : parseLogMessage logRow = some r) :
    (∀ c, r.module.head? = some c → isGoSpace c = false) ∧
    (∀ c, r.module.getLast? = some c → isGoSpace c = false) ∧
    (∀ c, r.function.head? = some c → isGoSpace c = false) ∧
    (∀ c, r.function.getLast? = some c → isGoSpace c = false) := by
  simp only [parseLogMessage] at h
  split at h
  · exact absurd h (by simp)
  · split at h
    · exact absurd h (by simp)
    · split at h
      · exact absurd h (by simp)
      · split at h
        · exact absurd h (by simp)
        · split at h
          · exact absurd h (by simp)
          · rw [Option.some.injEq] at h
            subst h
            exact ⟨fun c hc => trimSpace_head hc, fun c hc => trimSpace_getLast hc,
              fun c hc => trimSpace_head hc, fun c hc => trimSpace_getLast hc⟩

/-- The reducer is invariant under permutation of its input list, for any
fixed enumeration order of the global map: the counts are sums, the times
are minima and maxima, and the top-five ranking only reads the summed
counts, which are permutation-invariant. -/
theorem analyzelogAnalyses_perm (pig : List Str) {las1 las2 : List LogAnalysis}
    (h : las1.Perm las2) :
    analyzelogAnalyses pig las1 = analyzelogAnalyses pig las2 := by
  cases las1 with
  | nil =>
    rw [← h.nil_eq]
  | cons a t =>
    cases las2 with
    | nil => exact absurd h.eq_nil (by simp)
    | cons b t2 =>
      have hcount : globalCount (a :: t) = globalCount (b :: t2) := by
        funext m
        exact (h.map _).sum_eq
      have htop : analyzeTopFiveLogMessages pig (a :: t) =
          analyzeTopFiveLogMessages pig (b :: t2) := by
        unfold analyzeTopFiveLogMessages
        rw [hcount]
      have hsum : ∀ (g : LogAnalysis → Int), ((a :: t).map g).sum = ((b :: t2).map g).sum :=
        fun g => (h.map g).sum_eq
      have hmin : ((a :: t).map LogAnalysis.startTime).foldl min a.startTime =
          ((b :: t2).map LogAnalysis.startTime).foldl min b.startTime := by
        rw [List.map_cons, foldl_min_head, List.map_cons, foldl_min_head]
        exact minHead_perm (h.map _)
      have hmax : ((a :: t).map LogAnalysis.endTime).foldl max a.endTime =
          ((b :: t2).map LogAnalysis.endTime).foldl max b.endTime := by
        rw [List.map_cons, foldl_max_head, List.map_cons, foldl_max_head]
        exact maxHead_perm (h.map _)
      simp only [analyzelogAnalyses, htop]
      rw [foldl_mergeStep, foldl_mergeStep]
      congr 1
      rw [hsum LogAnalysis.numEntries,
        hsum (fun x => x.logSeverityFrequency.debug),
        hsum (fun x => x.logSeverityFrequency.info),
        hsum (fun x => x.logSeverityFrequency.warning),
        hsum (fun x => x.logSeverityFrequency.error),
        hmin, hmax]

/-- C4 counterexample: with an empty-file summary in the batch, the
reducer's global start time is the zero instant carried by the empty
summary, not the chronological minimum of the non-empty per-file start
times (which is `c4Time` here). -/
theorem c4_counterexample :
    (analyzelogAnalyses ["X".toList, []] [emptyLogAnalysis, c4Late]).map
      LogAnalysis.startTime = .ok zeroGoTime ∧
    minHead [c4Late.startTime] = c4Time ∧
    zeroGoTime ≠ c4Time :=
  ⟨rfl, by decide, by decide⟩

/-- C4 (amended): the reducer sets the global start time to the
chronological minimum of all per-file start times — the zero-valued
start times of empty files included, which is where the claim fails — and
the global end time to the maximum of all end times, initializing both
from the first summary; the resulting times are the same for every
permutation of the input list. -/
theorem c4_amended (pi1 pi2 : List Str) (las las2 : List LogAnalysis)
    (hne : las ≠ []) (hperm : las.Perm las2) :
    ∃ out out2,
      analyzelogAnalyses pi1 las = .ok out ∧
      analyzelogAnalyses pi2 las2 = .ok out2 ∧
      out.startTime = minHead (las.map LogAnalysis.startTime) ∧
      out.endTime = maxHead (las.map LogAnalysis.endTime) ∧
      out2.startTime = out.startTime ∧
      out2.endTime = out.endTime := by
  cases las with
  | nil => exact absurd rfl hne
  | cons a t =>
    cases las2 with
    | nil => exact absurd hperm.eq_nil (by simp)
    | cons b t2 =>
      refine ⟨_, _, rfl, rfl, ?_, ?_, ?_, ?_⟩
      · simp only [foldl_mergeStep, List.map_cons]
        exact foldl_min_head _ _
      · simp only [foldl_mergeStep, List.map_cons]
        exact foldl_max_head _ _
      · simp only [foldl_mergeStep, List.map_cons]
        rw [foldl_min_head, foldl_min_head]
        exact minHead_perm (hperm.symm.map _)
      · simp only [foldl_mergeStep, List.map_cons]
        rw [foldl_max_head, foldl_max_head]
        exact maxHead_perm (hperm.symm.map _)

/-- Witness for C4 (amended) on a two-summary batch and its reversal. -/
theorem c4_amended_witness :
    ∃ out out2,
      analyzelogAnalyses ["X".toList, []] [emptyLogAnalysis, c4Late] = .ok out ∧
      analyzelogAnalyses ["X".toList, []] [c4Late, emptyLogAnalysis] = .ok out2 ∧
      out.startTime = minHead ([emptyLogAnalysis, c4Late].map LogAnalysis.startTime) ∧
      out.endTime = maxHead ([emptyLogAnalysis, c4Late].map LogAnalysis.endTime) ∧
      out2.startTime = out.startTime ∧
      out2.endTime = out.endTime :=
  c4_amended ["X".toList, []] ["X".toList, []] [emptyLogAnalysis, c4Late]
    [c4Late, emptyLogAnalysis] (by decide) (by decide)

/-- C5 (confirmed): for a fixed batch of files, the global summary is the
same whatever order the concurrent per-file results arrive in: any two
arrival permutations of the collected summaries reduce to the same
result, for every fixed enumeration order of the global map.  (That
enumeration order is an independent nondeterministic input of the Go
runtime, held equal on both sides; its effect on tie-breaking is C1/C2's
subject, not the completion order's.) -/
theorem c5_completion_order_irrelevant (pis : List (List Str)) (files : List (Option Str))
    (las0 las1 las2 : List LogAnalysis) (pig : List Str)
    (_hc : (List.zipWith analyzeLogFile pis files).mapM (fun x => x) = Except.ok las0)
    (h1 : las1.Perm las0) (h2 : las2.Perm las0) :
    analyzelogAnalyses pig las1 = analyzelogAnalyses pig las2 :=
  analyzelogAnalyses_perm pig (h1.trans h2.symm)

/-- Witness for C5: the two-file scenario batch, with the two arrival
orders of its summaries. -/
theorem c5_completion_order_irrelevant_witness :
    analyzelogAnalyses c7PiG [c7LaB, c7LaA] = analyzelogAnalyses c7PiG [c7LaA, c7LaB] :=
  c5_completion_order_irrelevant [c7PiA, c7PiB] [c7FileA, c7FileB]
    [c7LaA, c7LaB] [c7LaB, c7LaA] [c7LaA, c7LaB] c7PiG rfl (by decide) (by decide)

/-- C7 counterexample: in the end-to-end scenario the reduced summary's
frequency list is nil — `analyzelogAnalyses` never assigns
`topFiveLogMessageFrequencies` — so the global summary does not carry a
(message, frequency) pair with frequency 2 for "Database error", even
though that message tops the list and its summed frequency inside the
ranking map is 2. -/
theorem c7_counterexample :
    (analyzeLogFiles [c7PiA, c7PiB] [c7FileA, c7FileB] c7PiG).map
      LogAnalysis.topFiveLogMessageFrequencies = .ok [] ∧
    ([] : List Int) ≠ [2] ∧
    (analyzeLogFiles [c7PiA, c7PiB] [c7FileA, c7FileB] c7PiG).map
      (fun out => out.topFiveLogMessages.head?) = .ok (some "Database error".toList) :=
  ⟨rfl, by decide, rfl⟩

/-- C7 (amended): the global summary has the `LogAnalysis` shape but its
frequency field is left nil by the reducer; in the two-file scenario the
global entry count is 4, the severities are info 1 / warning 1 / error 2,
the top message is "Database error", and that message's summed frequency
inside the reduction map is 2 — it is simply not carried in the result. -/
theorem c7_amended :
    (analyzeLogFiles [c7PiA, c7PiB] [c7FileA, c7FileB] c7PiG).map
      LogAnalysis.numEntries = .ok 4 ∧
    (analyzeLogFiles [c7PiA, c7PiB] [c7FileA, c7FileB] c7PiG).map
      LogAnalysis.logSeverityFrequency = .ok ⟨0, 1, 1, 2⟩ ∧
    (analyzeLogFiles [c7PiA, c7PiB] [c7FileA, c7FileB] c7PiG).map
      (fun out => out.topFiveLogMessages.head?) = .ok (some "Database error".toList) ∧
    globalCount [c7LaA, c7LaB] "Database error".toList = 2 ∧
    (analyzeLogFiles [c7PiA, c7PiB] [c7FileA, c7FileB] c7PiG).map
      LogAnalysis.topFiveLogMessageFrequencies = .ok [] :=
  ⟨rfl, rfl, rfl, by decide, rfl⟩

/-- C2 counterexample: the empty-message placeholder slots do contribute
to the global ranking — they create a zero-count key "" that surfaces in
the output whenever fewer than five distinct real messages exist — and
the tie between equal-count messages is broken by the map's enumeration
order, not by first-encountered order: two legal enumerations of the same
key set produce different rankings. -/
theorem c2_counterexample :
    analyzeTopFiveLogMessages ["A".toList, []] [c2Placeholder] = ["A".toList, []] ∧
    analyzeTopFiveLogMessages [[], "A".toList] [c2Placeholder] = ["A".toList, []] ∧
    (["A".toList, []] : List Str).Perm (globalKeys [c2Placeholder]) ∧
    (([] : Str) ∈ analyzeTopFiveLogMessages ["A".toList, []] [c2Placeholder]) ∧
    analyzeTopFiveLogMessages ["A".toList, "B".toList, []] [c2TieA] =
      ["A".toList, "B".toList, []] ∧
    analyzeTopFiveLogMessages ["B".toList, "A".toList, []] [c2TieA] =
      ["B".toList, "A".toList, []] ∧
    (["A".toList, "B".toList, []] : List Str).Perm (globalKeys [c2TieA]) ∧
    (["B".toList, "A".toList, []] : List Str).Perm (globalKeys [c2TieA]) ∧
    (["A".toList, "B".toList, []] : List Str) ≠ ["B".toList, "A".toList, []] :=
  ⟨by decide, by decide, by decide, by decide, by decide, by decide, by decide, by decide,
   by decide⟩

/-- C2 (amended): for every summary list and every legal enumeration
order of the global map's keys (the distinct texts of the first five
slots, the empty placeholder text included), the global top five consists
of at most five of those keys — all of them when fewer than five exist,
the empty placeholder key among them — ordered by weakly decreasing
summed frequency, where a message's summed frequency adds its slot
frequencies over all summaries in the order supplied; equal-frequency
ties follow the enumeration order, which Go leaves unspecified. -/
theorem c2_amended (pig : List Str) (las : List LogAnalysis)
    (hpi : pig.Perm (globalKeys las)) :
    (analyzeTopFiveLogMessages pig las).length = min 5 (globalKeys las).length ∧
    (∀ msg ∈ analyzeTopFiveLogMessages pig las, msg ∈ globalKeys las) ∧
    (analyzeTopFiveLogMessages pig las).Pairwise
      (fun a b => globalCount las b ≤ globalCount las a) := by
  refine ⟨?_, ?_, ?_⟩
  · show ((sortStableBy _ pig).take 5).length = _
    rw [List.length_take, (sortStableBy_perm _ pig).length_eq, hpi.length_eq]
  · intro msg hmsg
    have hmem := List.mem_of_mem_take hmsg
    exact hpi.mem_iff.mp ((sortStableBy_perm _ pig).mem_iff.mp hmem)
  · exact List.Pairwise.sublist (List.take_sublist _ _)
      (sortStableBy_pairwise (globalCount las) pig)

/-- Witness for C2 (amended) at a one-summary batch with placeholders. -/
theorem c2_amended_witness :
    (analyzeTopFiveLogMessages ["A".toList, []] [c2Placeholder]).length =
      min 5 (globalKeys [c2Placeholder]).length ∧
    "A".toList ∈ globalKeys [c2Placeholder] ∧
    (analyzeTopFiveLogMessages ["A".toList, []] [c2Placeholder]).Pairwise
      (fun a b => globalCount [c2Placeholder] b ≤ globalCount [c2Placeholder] a) :=
  ⟨(c2_amended ["A".toList, []] [c2Placeholder] (by decide)).1,
   (c2_amended ["A".toList, []] [c2Placeholder] (by decide)).2.1 "A".toList (by decide),
   (c2_amended ["A".toList, []] [c2Placeholder] (by decide)).2.2⟩

/-- Witness for C10 at a line with spaces around module and function:
the parsed record's boundary characters are not white space. -/
theorem c10_module_function_trimmed_witness :
    isGoSpace 'a' = false ∧ isGoSpace 'e' = false ∧
    isGoSpace 'f' = false ∧ isGoSpace 'n' = false :=
  ⟨(c10_module_function_trimmed c10Line c10Record (by decide)).1 'a' (by decide),
   (c10_module_function_trimmed c10Line c10Record (by decide)).2.1 'e' (by decide),
   (c10_module_function_trimmed c10Line c10Record (by decide)).2.2.1 'f' (by decide),
   (c10_module_function_trimmed c10Line c10Record (by decide)).2.2.2 'n' (by decide)⟩

end LogAnalyzer
